import Mathlib

/-!
Verification development for the Apollo job orchestrator.

Shallow embedding of the Go sources:
  runner/runner.go, runner/local.go, runner/cloudrun.go,
  scheduler (cron scheduler + store.go), secrets/utils.go,
  server/jobs_server.go (RunJob / DeleteJob / recordExecution),
  config (GetResourcesFor).

External collaborators (the robfig cron parser, the Docker CLI, the GCP
Batch API, the SQL driver, the process environment and the wall clock)
are modelled as explicit parameters of the embedded functions; everything
else is translated directly from the source.
-/

namespace Apollo

/-- models.Secret from the infisical SDK: a key/value pair
(fields SecretKey / SecretValue). -/
structure Secret where
  secretKey : String
  secretValue : String
deriving Repr, DecidableEq

/-- config.SecretConfig: a config-declared secret entry. -/
structure SecretConfig where
  name : String
  value : String
deriving Repr, DecidableEq

/-- runner.Resources: cpu / memory request strings. -/
structure Resources where
  cpu : String
  memory : String
deriving Repr, DecidableEq

/-- runner.EnvVar. -/
structure EnvVar where
  name : String
  value : String
deriving Repr, DecidableEq

/-- runner.JobOverrides. -/
structure JobOverrides where
  args : List String
  env : List EnvVar
  resources : Option Resources
  taskCount : Int
deriving Repr, DecidableEq

/-- runner.JobType. -/
inductive JobType where
  | oneTime
  | repeatable
deriving Repr, DecidableEq

/-- runner.JobRequest: the runner-level job description.  A Go nil
pointer for Overrides is modelled as none. -/
structure JobRequest where
  name : String
  jobID : String
  command : String
  argsJSONBase64 : String
  resources : Resources
  type : JobType
  scheduleSpec : String
  overrides : Option JobOverrides
deriving Repr, DecidableEq

/-- scheduler.JobRecord: a row of the apollo_jobs table. -/
structure JobRecord where
  name : String
  command : String
  argsBase64 : String
  cronSpec : String
  cpu : String
  memory : String
deriving Repr, DecidableEq

/-- scheduler.ExecutionRecord: a row of the apollo_executions table. -/
structure ExecutionRecord where
  id : String
  name : String
  command : String
  argsBase64 : String
  cpu : String
  memory : String
  status : String
  error : String
  result : String
  startedAt : Int
  finishedAt : Int
deriving Repr, DecidableEq

/-! ## Go integer parsing (strconv.ParseInt, base 10, bit size 64)

The runner's resource parsers call strconv.ParseInt(s, 10, 64), which
accepts an optional sign followed by one or more decimal digits and
errors out on anything else, including values outside the int64 range.
-/

/-- Decimal digit value of a character, if it is one of 0..9. -/
def digitVal (c : Char) : Option Nat :=
  if '0' ≤ c ∧ c ≤ '9' then some (c.toNat - '0'.toNat) else none

/-- Accumulate decimal digits left to right; none on a non-digit. -/
def parseDigitsAux : List Char → Nat → Option Nat
  | [], acc => some acc
  | c :: cs, acc =>
    match digitVal c with
    | some d => parseDigitsAux cs (acc * 10 + d)
    | none => none

/-- Parse a non-empty all-digit string to a natural number. -/
def parseDigits : List Char → Option Nat
  | [] => none
  | cs => parseDigitsAux cs 0

/-- Embedding of strconv.ParseInt(s, 10, 64): optional single sign,
then decimal digits; errors (none) on empty input, stray characters,
or overflow of the signed 64-bit range. -/
def goParseInt64L (s : List Char) : Option Int :=
  match s with
  | [] => none
  | '+' :: cs =>
    match parseDigits cs with
    | some n => if n ≤ 9223372036854775807 then some (n : Int) else none
    | none => none
  | '-' :: cs =>
    match parseDigits cs with
    | some n => if n ≤ 9223372036854775808 then some (-(n : Int)) else none
    | none => none
  | cs =>
    match parseDigits cs with
    | some n => if n ≤ 9223372036854775807 then some (n : Int) else none
    | none => none

/-- strconv.ParseInt on a Go string. -/
def goParseInt64 (s : String) : Option Int :=
  goParseInt64L s.data

/-- Two's-complement wrap-around of Go int64 arithmetic. -/
def int64wrap (x : Int) : Int :=
  (x + 2 ^ 63) % 2 ^ 64 - 2 ^ 63

/-! ## Go string helpers used by the parsers -/

/-- strings.HasSuffix on character lists.  The suffixes used by the
code ("m", "GI", "MI") are pure ASCII, so the byte-level Go check and
this character-level check agree. -/
def endsWithL (s suffix : List Char) : Bool :=
  List.isSuffixOf suffix s

/-- strings.TrimSuffix when the suffix (of length n) is known to be
present: drop the last n characters. -/
def dropLastN (s : List Char) (n : Nat) : List Char :=
  s.take (s.length - n)

/-- strings.ToUpper, restricted to the case mappings that can influence
parseMemory: ASCII lower-case letters, plus U+0131 (dotless i), the one
non-ASCII character whose Go upper-case form is an ASCII letter that the
"GI"/"MI" suffix tests can see.  All other characters are left
unchanged; their Go upper-case forms are non-ASCII and can neither
become a decimal digit nor one of G, I, M, so parseMemory's result is
unaffected. -/
def goUpperChar (c : Char) : Char :=
  if 'a' ≤ c ∧ c ≤ 'z' then Char.ofNat (c.toNat - 32)
  else if c = Char.ofNat 0x131 then 'I'
  else c

/-- strings.ToUpper on character lists (see goUpperChar). -/
def goToUpperL (s : List Char) : List Char :=
  s.map goUpperChar

/-! ## runner/cloudrun.go: parseCPU and parseMemory -/

/-- parseCPU from runner/cloudrun.go, on character lists.  Note the Go
code reassigns its local variable to the trimmed string inside the
first branch, so the fall-through ParseInt call parses the trimmed
string again; this is mirrored by the inner second match. -/
def parseCPUL (cpu : List Char) : Int :=
  if endsWithL cpu ['m'] then
    let t := dropLastN cpu 1
    match goParseInt64L t with
    | some val => val
    | none =>
      match goParseInt64L t with
      | some val => int64wrap (val * 1000)
      | none => 1000
  else
    match goParseInt64L cpu with
    | some val => int64wrap (val * 1000)
    | none => 1000

/-- parseCPU from runner/cloudrun.go. -/
def parseCPU (cpu : String) : Int :=
  parseCPUL cpu.data

/-- parseMemory from runner/cloudrun.go, on character lists.  The Go
code upper-cases, strips a "GI" suffix and on parse failure falls
through to the "MI" check with the already-trimmed string; that
fall-through is mirrored here. -/
def parseMemoryL (mem : List Char) : Int :=
  let m1 := goToUpperL mem
  if endsWithL m1 ['G', 'I'] then
    let m2 := dropLastN m1 2
    match goParseInt64L m2 with
    | some val => int64wrap (val * 1024)
    | none =>
      if endsWithL m2 ['M', 'I'] then
        match goParseInt64L (dropLastN m2 2) with
        | some val => val
        | none => 512
      else 512
  else
    if endsWithL m1 ['M', 'I'] then
      match goParseInt64L (dropLastN m1 2) with
      | some val => val
      | none => 512
    else 512

/-- parseMemory from runner/cloudrun.go. -/
def parseMemory (mem : String) : Int :=
  parseMemoryL mem.data

/-- The cpu forms the code recognizes: a ParseInt-able integer, bare
or followed by an "m" suffix. -/
def cpuRecognized (s : String) : Bool :=
  (goParseInt64L s.data).isSome ||
    (endsWithL s.data ['m'] && (goParseInt64L (dropLastN s.data 1)).isSome)

/-- The memory forms the claim names: an integer followed by "Gi" or
by "Mi", case-insensitively. -/
def memRecognized (s : String) : Bool :=
  let u := goToUpperL s.data
  (endsWithL u ['G', 'I'] && (goParseInt64L (dropLastN u 2)).isSome) ||
    (endsWithL u ['M', 'I'] && (goParseInt64L (dropLastN u 2)).isSome)

/-- The memory forms the code actually accepts: the claim's forms plus
the fall-through form whose upper-case spelling ends in "MI" then "GI"
with an integer in front (for example "5MiGi"). -/
def memRecognizedAmended (s : String) : Bool :=
  memRecognized s ||
    (let u := goToUpperL s.data
     endsWithL u ['G', 'I'] && endsWithL (dropLastN u 2) ['M', 'I'] &&
       (goParseInt64L (dropLastN (dropLastN u 2) 2)).isSome)

/-! ## secrets/utils.go: FilterSecrets

The Go map from provider secrets is built by inserting the provider
list in order, so a duplicated SecretKey resolves to the last entry;
lookupSecret reproduces that.  The process environment is passed in as
a function (Go os.Getenv returns "" for unset variables).
-/

/-- strings.Contains(value, "$") with the single-character pattern the
code uses: true iff some character of the string is the dollar sign. -/
def containsDollar (s : String) : Bool :=
  s.data.contains '$'

/-- Lookup in the provider secret map (last insertion wins). -/
def lookupSecret (secrets : List Secret) (k : String) : Option Secret :=
  secrets.reverse.find? (fun s => s.secretKey == k)

/-- The first loop of FilterSecrets: for each config entry found in the
provider map whose declared value contains a dollar sign, append the
provider secret and record its key in injectedSecrets. -/
def filterPhase1 (secrets : List Secret) (cfg : List SecretConfig) :
    List Secret × List String :=
  cfg.foldl
    (fun acc c =>
      match lookupSecret secrets c.name with
      | some s =>
        if containsDollar c.value then (acc.1 ++ [s], acc.2 ++ [s.secretKey])
        else acc
      | none => acc)
    ([], [])

/-- FilterSecrets from secrets/utils.go: the second loop appends, for
every config entry not already injected, the literal value when it has
no dollar sign, else the process-environment value, dropping the entry
when that is empty. -/
def FilterSecrets (env : String → String) (secrets : List Secret)
    (cfg : List SecretConfig) : List Secret :=
  let p1 := filterPhase1 secrets cfg
  cfg.foldl
    (fun acc c =>
      if p1.2.contains c.name then acc
      else if !(containsDollar c.value) then acc ++ [⟨c.name, c.value⟩]
      else if env c.name == "" then acc
      else acc ++ [⟨c.name, env c.name⟩])
    p1.1

/-- Selection function equivalent to one step of FilterSecrets' first
loop (used to state what the loop produces). -/
def phase1Select (secrets : List Secret) (c : SecretConfig) : Option Secret :=
  match lookupSecret secrets c.name with
  | some s => if containsDollar c.value then some s else none
  | none => none

/-- Selection function equivalent to one step of FilterSecrets' second
loop, given the injectedSecrets key set of the first loop. -/
def phase2Select (env : String → String) (injected : List String)
    (c : SecretConfig) : Option Secret :=
  if injected.contains c.name then none
  else if !(containsDollar c.value) then some ⟨c.name, c.value⟩
  else if env c.name == "" then none
  else some ⟨c.name, env c.name⟩

/-- Whether the first loop selects a config entry. -/
def phase1Keeps (secrets : List Secret) (c : SecretConfig) : Bool :=
  (lookupSecret secrets c.name).isSome && containsDollar c.value

/-- Whether the second loop selects a config entry. -/
def phase2Keeps (env : String → String) (injected : List String)
    (c : SecretConfig) : Bool :=
  !(injected.contains c.name) &&
    (!(containsDollar c.value) || !(env c.name == ""))

/-- The injectedSecrets key set recorded by FilterSecrets' first loop. -/
def injectedKeys (secrets : List Secret) (cfg : List SecretConfig) : List String :=
  (cfg.filterMap (phase1Select secrets)).map Secret.secretKey

/-! ## The in-process cron scheduler

The scheduler source keeps a mutex, a robfig cron engine and a map
name → EntryID.  The engine is modelled by the multiset of live entry
ids plus a fresh-id counter; whether the external cron parser accepts a
spec (cron.AddFunc succeeding) is passed in as the parseOk parameter.
The callback bodies play no role in the claims and are omitted.
-/

/-- State of scheduler.Scheduler: the name → EntryID map (as an
association list with at most one binding per name), the engine's live
entry ids, and the next id AddFunc hands out. -/
structure SchedState where
  entries : List (String × Nat)
  cronIDs : List Nat
  nextID : Nat
deriving Repr, DecidableEq

/-- Lookup of the entries map. -/
def SchedState.lookup (st : SchedState) (name : String) : Option Nat :=
  (st.entries.find? (fun e => e.1 == name)).map (fun e => e.2)

/-- Scheduler.Schedule from the scheduler source: remove any existing
trigger under the name, then ask the engine to add the spec; on parse
failure return an error (second component true) with the removal
already done. -/
def schedulerSchedule (parseOk : String → Bool) (st : SchedState)
    (name spec : String) : SchedState × Bool :=
  let st1 :=
    match st.lookup name with
    | some id =>
      { st with
        cronIDs := st.cronIDs.filter (fun i => !(i == id))
        entries := st.entries.filter (fun e => !(e.1 == name)) }
    | none => st
  if parseOk spec then
    ({ st1 with
       cronIDs := st1.cronIDs ++ [st1.nextID]
       entries := st1.entries ++ [(name, st1.nextID)]
       nextID := st1.nextID + 1 }, false)
  else (st1, true)

/-- Scheduler.Delete from the scheduler source: remove if present, no
error if absent. -/
def schedulerDelete (st : SchedState) (name : String) : SchedState :=
  match st.lookup name with
  | some id =>
    { st with
      cronIDs := st.cronIDs.filter (fun i => !(i == id))
      entries := st.entries.filter (fun e => !(e.1 == name)) }
  | none => st

/-! ## scheduler/store.go

Both SQL dialects implement insert-or-replace keyed by the primary key
name, delete reporting not-found when no row was affected, and a plain
append for executions.  The tables are modelled as lists of rows.
-/

/-- State of the two store tables. -/
structure StoreState where
  jobs : List JobRecord
  executions : List ExecutionRecord
deriving Repr, DecidableEq

/-- Store.Upsert: insert or replace the apollo_jobs row keyed by
r.name. -/
def storeUpsert (st : StoreState) (r : JobRecord) : StoreState :=
  { st with jobs := st.jobs.filter (fun j => !(j.name == r.name)) ++ [r] }

/-- Store.Delete: remove the apollo_jobs row; the second component is
true when no row was affected (the "not found" error). -/
def storeDelete (st : StoreState) (name : String) : StoreState × Bool :=
  ({ st with jobs := st.jobs.filter (fun j => !(j.name == name)) },
   (st.jobs.filter (fun j => j.name == name)).isEmpty)

/-- Store.AddExecution: append a row to apollo_executions. -/
def storeAddExecution (st : StoreState) (e : ExecutionRecord) : StoreState :=
  { st with executions := st.executions ++ [e] }

/-! ## runner/local.go: argument assembly of LocalRunner.RunJob

The full docker command line is a pure function of the runner's image
and secret set, the entrypoint and the request; it is assembled by
AppendSecrets, AppendOverrides, the positional blocks, LimitResources
and the overrides.Args tail, in exactly the source's order.
-/

/-- LocalRunner.LimitResources' choice of resources: the override
resources when present, else the request's. -/
def localEffectiveResources (req : JobRequest) : Resources :=
  match req.overrides with
  | some o =>
    match o.resources with
    | some r => r
    | none => req.resources
  | none => req.resources

/-- The docker CLI argument list assembled by LocalRunner.RunJob in
runner/local.go, in the source's order: run --rm, secrets (-e), override
env (-e), image / entrypoint / command positionals, args_base64 when
non-empty, then --memory and --cpus from LimitResources, then
overrides.Args. -/
def localRunArgs (image : String) (secrets : List Secret) (cmd : String)
    (req : JobRequest) : List String :=
  let args := ["run", "--rm"]
  let args := args ++ secrets.flatMap
    (fun s => ["-e", s.secretKey ++ "=" ++ s.secretValue])
  let args := args ++
    (match req.overrides with
     | some o =>
       if o.env.length > 0 then
         o.env.flatMap (fun e => ["-e", e.name ++ "=" ++ e.value])
       else []
     | none => [])
  let args := args ++ [image, cmd, req.command]
  let args :=
    if req.argsJSONBase64 ≠ "" then args ++ [req.argsJSONBase64] else args
  let res := localEffectiveResources req
  let args := args ++ ["--memory", res.memory, "--cpus", res.cpu]
  match req.overrides with
  | some o => if o.args.length > 0 then args ++ o.args else args
  | none => args

/-- LocalRunner.DeleteJob: local one-off containers are ephemeral, so
there is nothing to delete and no error is ever returned (none). -/
def localRunnerDeleteJob (_name : String) : Option String :=
  none

/-- The ComputeResource of the batch TaskSpec built by
BatchRunner.RunJob in runner/cloudrun.go: CpuMilli and MemoryMib are
parsed from the request's base resources (req.Resources), with no
consultation of req.Overrides.Resources. -/
def batchComputeResource (req : JobRequest) : Int × Int :=
  (parseCPU req.resources.cpu, parseMemory req.resources.memory)

/-! ## server/jobs_server.go

The server is embedded as a pure state transformer.  External effects
are parameters: the cron parser verdict, the runner call's outcome, the
wall-clock reads and whether the audit insert succeeds.  The returned
attempts list records every ExecutionRecord whose insertion the handler
attempted before returning, successful or not.
-/

/-- config.Config.GetResourcesFor: resources of the first configured
job with the given name, else the 250m / 256Mi defaults. -/
def getResourcesFor (jobs : List (String × Resources)) (jobName : String) :
    Resources :=
  match jobs.find? (fun j => j.1 == jobName) with
  | some j => j.2
  | none => { cpu := "250m", memory := "256Mi" }

/-- The parts of config.Config the RunJob handler reads. -/
structure ServerConfig where
  cmd : String
  jobs : List (String × Resources)
deriving Repr

/-- proto.RunJobRequest: the wire message.  The type field carries the
raw JobType enum value (JOB_TYPE_ONE_TIME = 0, JOB_TYPE_REPEATABLE = 1);
job_id and overrides are present on the wire even though the handler
ignores them. -/
structure RpcRunJobRequest where
  name : String
  jobId : String
  command : String
  argsBase64 : String
  resources : Resources
  type : Int
  schedule : String
  overrides : Option JobOverrides
deriving Repr

/-- mapJobType from server/jobs_server.go: REPEATABLE (enum value 1)
maps to repeatable, everything else to oneTime. -/
def mapJobType (t : Int) : JobType :=
  if t = 1 then JobType.repeatable else JobType.oneTime

/-- The runner-level JobRequest the RunJob handler constructs (lines
38 to 51 of server/jobs_server.go): only name, command, args_base64,
resources, type and schedule are copied; JobID is left empty and
Overrides is left nil; empty cpu and memory are both defaulted from the
per-name config. -/
def toRunnerRequest (cfg : ServerConfig) (req : RpcRunJobRequest) :
    JobRequest :=
  let r : JobRequest :=
    { name := req.name
      jobID := ""
      command := req.command
      argsJSONBase64 := req.argsBase64
      resources := req.resources
      type := mapJobType req.type
      scheduleSpec := req.schedule
      overrides := none }
  if r.resources.cpu = "" ∧ r.resources.memory = "" then
    { r with resources := getResourcesFor cfg.jobs r.command }
  else r

/-- Effect parameters of one synchronous RunJob execution: the three
time.Now().Unix() reads (start, id generation, finish), the runner
outcome (result string and optional error message), and whether the
store's AddExecution succeeds. -/
structure SyncEffects where
  startTime : Int
  idTime : Int
  finishTime : Int
  runnerRes : String
  runnerErr : Option String
  addExecOk : Bool
deriving Repr

/-- Result of a RunJob RPC: a populated response or an error status. -/
inductive RunJobResult where
  | ok (id : String) (logs : String)
  | err
deriving Repr, DecidableEq

/-- The server's nilable scheduler and store handles. -/
structure ServerState where
  sched : Option SchedState
  store : Option StoreState
deriving Repr

/-- Outcome of one RunJob RPC: its result, the server state after it,
and the audit rows whose insertion was attempted before returning. -/
structure RpcOutcome where
  result : RunJobResult
  state : ServerState
  attempts : List ExecutionRecord
deriving Repr

/-- recordExecution from server/jobs_server.go, build of the audit row:
status is "error" exactly when the runner returned an error, else
"success"; the error column carries the error message. -/
def mkExecutionRecord (r : JobRequest) (id result : String)
    (runErr : Option String) (started finished : Int) : ExecutionRecord :=
  { id := id
    name := r.name
    command := r.command
    argsBase64 := r.argsJSONBase64
    cpu := r.resources.cpu
    memory := r.resources.memory
    status := match runErr with | some _ => "error" | none => "success"
    error := match runErr with | some m => m | none => ""
    result := result
    startedAt := started
    finishedAt := finished }

/-- The synchronous (one-shot, or scheduler-less) tail of the RunJob
handler: record start, generate the job id when empty, call the runner,
record finish, attempt the audit write (a failed write only logs), then
propagate the runner error or respond with the id and output. -/
def runJobSync (eff : SyncEffects) (store : Option StoreState)
    (r : JobRequest) : RunJobResult × Option StoreState × List ExecutionRecord :=
  let r1 :=
    if r.jobID = "" then
      { r with jobID := "job-" ++ r.name ++ "-" ++ toString eff.idTime }
    else r
  let rec0 := mkExecutionRecord r1 r1.jobID eff.runnerRes eff.runnerErr
    eff.startTime eff.finishTime
  let store1 :=
    match store with
    | some st => some (if eff.addExecOk then storeAddExecution st rec0 else st)
    | none => none
  let attempts := match store with | some _ => [rec0] | none => []
  match eff.runnerErr with
  | some _ => (RunJobResult.err, store1, attempts)
  | none => (RunJobResult.ok r1.jobID eff.runnerRes, store1, attempts)

/-- The RunJob RPC handler from server/jobs_server.go.  On the
repeatable path (type repeatable, scheduler present, non-empty
schedule) it registers the cron entry, returns the scheduler's error if
parsing failed, otherwise upserts the JobRecord - whose struct literal
in the source sets only Name, Command, Cpu and Memory, leaving
args_base64 and cron_spec as empty strings - and replies
(name, "scheduled").  Any other request runs synchronously. -/
def serverRunJob (cfg : ServerConfig) (parseOk : String → Bool)
    (eff : SyncEffects) (st : ServerState) (req : RpcRunJobRequest) :
    RpcOutcome :=
  let r := toRunnerRequest cfg req
  match st.sched with
  | some ss =>
    if r.type = JobType.repeatable ∧ r.scheduleSpec ≠ "" then
      let res := schedulerSchedule parseOk ss r.name r.scheduleSpec
      if res.2 then
        { result := RunJobResult.err
          state := { st with sched := some res.1 }
          attempts := [] }
      else
        let store1 :=
          match st.store with
          | some sto =>
            some (storeUpsert sto
              { name := r.name
                command := r.command
                argsBase64 := ""
                cronSpec := ""
                cpu := r.resources.cpu
                memory := r.resources.memory })
          | none => none
        { result := RunJobResult.ok r.name "scheduled"
          state := { sched := some res.1, store := store1 }
          attempts := [] }
    else
      let out := runJobSync eff st.store r
      { result := out.1
        state := { st with store := out.2.1 }
        attempts := out.2.2 }
  | none =>
    let out := runJobSync eff st.store r
    { result := out.1
      state := { st with store := out.2.1 }
      attempts := out.2.2 }

/-- The DeleteJob RPC handler from server/jobs_server.go: best-effort
scheduler removal, best-effort store delete (its not-found error is
discarded), then runner.DeleteJob whose error alone decides the RPC
error (first component). -/
def serverDeleteJob (runnerDel : String → Option String) (st : ServerState)
    (name : String) : Bool × ServerState :=
  let st1 :=
    match st.sched with
    | some ss => { st with sched := some (schedulerDelete ss name) }
    | none => st
  let st2 :=
    match st1.store with
    | some sto => { st1 with store := some (storeDelete sto name).1 }
    | none => st1
  match runnerDel name with
  | some _ => (true, st2)
  | none => (false, st2)

/-! ## Helper lemmas -/

/-- Fallback behavior of parseCPU: any input that neither parses as an
integer nor as an integer with an "m" suffix yields the 1000 millicore
default. -/
theorem parseCPU_default (s : String) (h : cpuRecognized s = false) :
    parseCPU s = 1000 := by
  unfold cpuRecognized at h
  unfold parseCPU parseCPUL
  by_cases hm : endsWithL s.data ['m']
  · cases hx : goParseInt64L (dropLastN s.data 1) with
    | some v => simp [hm, hx] at h
    | none => simp [hm, hx]
  · cases hx : goParseInt64L s.data with
    | some v => simp [hx] at h
    | none => simp [hm, hx]

/-- Fallback behavior of parseMemory: outside the forms the code
accepts (including the "MiGi" fall-through), the 512 MiB default is
returned. -/
theorem parseMemory_default (s : String) (h : memRecognizedAmended s = false) :
    parseMemory s = 512 := by
  unfold memRecognizedAmended memRecognized at h
  unfold parseMemory parseMemoryL
  by_cases hg : endsWithL (goToUpperL s.data) ['G', 'I']
  · cases hx : goParseInt64L (dropLastN (goToUpperL s.data) 2) with
    | some v => simp [hg, hx] at h
    | none =>
      by_cases hmi : endsWithL (dropLastN (goToUpperL s.data) 2) ['M', 'I']
      · cases hy : goParseInt64L (dropLastN (dropLastN (goToUpperL s.data) 2) 2) with
        | some w => simp [hg, hmi, hx, hy] at h
        | none => simp [hg, hmi, hx, hy]
      · simp [hg, hmi, hx]
  · by_cases hmi : endsWithL (goToUpperL s.data) ['M', 'I']
    · cases hx : goParseInt64L (dropLastN (goToUpperL s.data) 2) with
      | some v => simp [hg, hmi, hx] at h
      | none => simp [hg, hmi, hx]
    · simp [hg, hmi]

/-! ## C10: resource parser laws -/

/-- C10 counterexample: "5MiGi" is not one of the claim's recognized
memory forms, yet parseMemory does not fall back to 512: the code
strips the "GI" suffix, fails to parse "5MI", falls through to the
"MI" check on the already-trimmed string and returns 5. -/
theorem parseMemory_fallthrough_counterexample :
    parseMemory "5MiGi" = 5 ∧ memRecognized "5MiGi" = false ∧ (5 : Int) ≠ 512 := by
  refine ⟨by decide, by decide, by decide⟩

/-- C10 (amended): the four concrete parser laws hold; parseCPU falls
back to 1000 on every unrecognized input; parseMemory falls back to 512
on every input outside the accepted forms, which include the
sequential-suffix-stripping form such as "5MiGi" in addition to the
claim's <n>Mi / <n>Gi. -/
theorem resource_parser_laws_amended :
    (parseCPU "1" = 1000 ∧ parseCPU "500m" = 500 ∧
      parseMemory "1Gi" = 1024 ∧ parseMemory "512Mi" = 512) ∧
    (∀ s : String, cpuRecognized s = false → parseCPU s = 1000) ∧
    (∀ s : String, memRecognizedAmended s = false → parseMemory s = 512) :=
  ⟨⟨by decide, by decide, by decide, by decide⟩,
    fun s h => parseCPU_default s h,
    fun s h => parseMemory_default s h⟩

/-- C10 witness: the fallback clauses applied at concrete unrecognized
inputs. -/
theorem resource_parser_laws_amended_witness :
    cpuRecognized "cores" = false ∧ parseCPU "cores" = 1000 ∧
    memRecognizedAmended "lots" = false ∧ parseMemory "lots" = 512 :=
  ⟨by decide, resource_parser_laws_amended.2.1 "cores" (by decide),
    by decide, resource_parser_laws_amended.2.2 "lots" (by decide)⟩

/-! ## C1: Schedule on parse failure -/

/-- C1 counterexample: with a trigger installed for "a" (entry id 1),
a Schedule call whose spec the cron parser rejects returns an error but
has already removed the prior trigger, so the entry table is not left
unchanged and "a" is no longer registered. -/
theorem schedule_parse_failure_removes_prior_trigger :
    (SchedState.lookup ⟨[("a", 1)], [1], 2⟩ "a" = some 1) ∧
    (schedulerSchedule (fun _ => false) ⟨[("a", 1)], [1], 2⟩ "a" "bad").2 = true ∧
    (schedulerSchedule (fun _ => false) ⟨[("a", 1)], [1], 2⟩ "a" "bad").1.entries = [] := by
  refine ⟨by decide, by decide, by decide⟩

/-- C1 (amended): when the spec fails to parse, Schedule returns an
error and leaves no trigger installed under the name: the entry table
afterwards is the prior table with that name removed (entries under
other names are untouched), and a lookup of the name finds nothing. -/
theorem schedule_parse_failure_leaves_no_trigger
    (parseOk : String → Bool) (st : SchedState) (name spec : String)
    (h : parseOk spec = false) :
    (schedulerSchedule parseOk st name spec).2 = true ∧
    (schedulerSchedule parseOk st name spec).1.entries
      = st.entries.filter (fun e => !(e.1 == name)) ∧
    (schedulerSchedule parseOk st name spec).1.lookup name = none := by
  have hfilter : ∀ l : List (String × Nat),
      (l.filter (fun e => !(e.1 == name))).find? (fun e => e.1 == name) = none := by
    intro l
    rw [List.find?_eq_none]
    intro x hx
    have h2 := (List.mem_filter.mp hx).2
    simp only [Bool.not_eq_true'] at h2
    simp [h2]
  unfold schedulerSchedule
  rw [h, if_neg Bool.false_ne_true]
  cases hl : st.lookup name with
  | some id =>
    refine ⟨rfl, rfl, ?_⟩
    unfold SchedState.lookup
    simp [hfilter]
  | none =>
    have hall : ∀ x ∈ st.entries, ¬((fun e : String × Nat => e.1 == name) x = true) := by
      unfold SchedState.lookup at hl
      cases hfind : st.entries.find? (fun e => e.1 == name) with
      | none => exact List.find?_eq_none.mp hfind
      | some v => rw [hfind] at hl; simp at hl
    refine ⟨rfl, ?_, ?_⟩
    · symm
      rw [List.filter_eq_self]
      intro e he
      simpa using hall e he
    · exact hl

/-- C1 witness: applying the amended theorem at the counterexample
state. -/
theorem schedule_parse_failure_leaves_no_trigger_witness :
    ((fun _ : String => false) "bad" = false) ∧
    (schedulerSchedule (fun _ => false) ⟨[("a", 1)], [1], 2⟩ "a" "bad").2 = true ∧
    (schedulerSchedule (fun _ => false) ⟨[("a", 1)], [1], 2⟩ "a" "bad").1.lookup "a" = none :=
  ⟨rfl,
    (schedule_parse_failure_leaves_no_trigger (fun _ => false)
      ⟨[("a", 1)], [1], 2⟩ "a" "bad" rfl).1,
    (schedule_parse_failure_leaves_no_trigger (fun _ => false)
      ⟨[("a", 1)], [1], 2⟩ "a" "bad" rfl).2.2⟩

/-! ## C3: local backend argument order -/

/-- C3: the docker argument list LocalRunner.RunJob actually assembles
for a concrete request.  The resource flags --memory / --cpus appear at
positions 10..13, after the image (position 6), the entrypoint, the
command and args_base64 - not before the image as the spec's fixed
order requires, so the docker CLI would hand them to the workload as
ordinary arguments instead of applying them as limits (contradicting
the stated purpose of LimitResources). -/
theorem localRunArgs_resource_flags_after_image :
    localRunArgs "img" [⟨"K", "V"⟩] "/app/rover"
      ⟨"t", "", "analytics", "abc", ⟨"1", "2Gi"⟩, JobType.oneTime, "",
        some ⟨["--x"], [⟨"E", "v"⟩], some ⟨"2", "4Gi"⟩, 2⟩⟩
      = ["run", "--rm", "-e", "K=V", "-e", "E=v", "img", "/app/rover",
          "analytics", "abc", "--memory", "4Gi", "--cpus", "2", "--x"] := by
  decide

/-! ## C4: override resources reach the local backend only -/

/-- C4 counterexample: with base resources cpu 1 / memory 2Gi and
override resources cpu 2 / memory 4Gi, the batch backend's
ComputeResource is (1000, 2048), i.e. parsed from the base request,
while the override would parse to (2000, 4096): the cloud batch backend
does not derive its limits from overrides.resources. -/
theorem batch_resources_ignore_overrides :
    batchComputeResource
      ⟨"t", "", "analytics", "", ⟨"1", "2Gi"⟩, JobType.oneTime, "",
        some ⟨[], [], some ⟨"2", "4Gi"⟩, 1⟩⟩
      = (1000, 2048) ∧
    (parseCPU "2", parseMemory "4Gi") = (2000, 4096) := by
  refine ⟨by decide, by decide⟩

/-- C4 (amended): when overrides.resources is present the LOCAL
backend derives its --memory / --cpus flags wholly from the override,
while the cloud batch backend always computes CpuMilli / MemoryMib from
the request's base resources, ignoring the override. -/
theorem resource_override_local_only (req : JobRequest) (o : JobOverrides)
    (r : Resources) (ho : req.overrides = some o) (hr : o.resources = some r) :
    localEffectiveResources req = r ∧
    (∀ image secrets cmd, List.IsInfix ["--memory", r.memory, "--cpus", r.cpu]
      (localRunArgs image secrets cmd req)) ∧
    batchComputeResource req
      = (parseCPU req.resources.cpu, parseMemory req.resources.memory) := by
  have heff : localEffectiveResources req = r := by
    simp [localEffectiveResources, ho, hr]
  refine ⟨heff, ?_, rfl⟩
  intro image secrets cmd
  simp only [localRunArgs, ho, heff]
  by_cases ha : o.args.length > 0
  · rw [if_pos ha]
    exact List.infix_append _ _ _
  · rw [if_neg ha]
    exact (List.suffix_append _ _).isInfix

/-- C4 witness: the amended theorem applied at a concrete request with
override resources cpu 2 / memory 4Gi over base cpu 1 / memory 2Gi. -/
theorem resource_override_local_only_witness :
    localEffectiveResources
        ⟨"t", "", "analytics", "", ⟨"1", "2Gi"⟩, JobType.oneTime, "",
          some ⟨[], [], some ⟨"2", "4Gi"⟩, 1⟩⟩ = ⟨"2", "4Gi"⟩ ∧
    List.IsInfix ["--memory", "4Gi", "--cpus", "2"]
      (localRunArgs "img" [] "/app/rover"
        ⟨"t", "", "analytics", "", ⟨"1", "2Gi"⟩, JobType.oneTime, "",
          some ⟨[], [], some ⟨"2", "4Gi"⟩, 1⟩⟩) ∧
    batchComputeResource
        ⟨"t", "", "analytics", "", ⟨"1", "2Gi"⟩, JobType.oneTime, "",
          some ⟨[], [], some ⟨"2", "4Gi"⟩, 1⟩⟩
      = (parseCPU "1", parseMemory "2Gi") :=
  ⟨(resource_override_local_only
      ⟨"t", "", "analytics", "", ⟨"1", "2Gi"⟩, JobType.oneTime, "",
        some ⟨[], [], some ⟨"2", "4Gi"⟩, 1⟩⟩
      ⟨[], [], some ⟨"2", "4Gi"⟩, 1⟩ ⟨"2", "4Gi"⟩ rfl rfl).1,
    (resource_override_local_only
      ⟨"t", "", "analytics", "", ⟨"1", "2Gi"⟩, JobType.oneTime, "",
        some ⟨[], [], some ⟨"2", "4Gi"⟩, 1⟩⟩
      ⟨[], [], some ⟨"2", "4Gi"⟩, 1⟩ ⟨"2", "4Gi"⟩ rfl rfl).2.1 "img" [] "/app/rover",
    (resource_override_local_only
      ⟨"t", "", "analytics", "", ⟨"1", "2Gi"⟩, JobType.oneTime, "",
        some ⟨[], [], some ⟨"2", "4Gi"⟩, 1⟩⟩
      ⟨[], [], some ⟨"2", "4Gi"⟩, 1⟩ ⟨"2", "4Gi"⟩ rfl rfl).2.2⟩

/-! ## Characterization of FilterSecrets as two order-preserving passes -/

/-- A foldl that appends at most one element per input step is the
accumulator followed by a filterMap. -/
theorem foldl_filterMap_eq {α β : Type} (g : α → Option β)
    (f : List β → α → List β)
    (hf : ∀ acc x, f acc x = acc ++ (g x).toList) :
    ∀ (l : List α) (acc : List β), l.foldl f acc = acc ++ l.filterMap g := by
  intro l
  induction l with
  | nil => intro acc; simp
  | cons x xs ih =>
    intro acc
    rw [List.foldl_cons, ih, hf]
    cases hx : g x with
    | some b => simp [List.filterMap_cons, hx]
    | none => simp [List.filterMap_cons, hx]

/-- The first loop of FilterSecrets produces the phase-one selections in
config order, together with their keys. -/
theorem filterPhase1_eq (secrets : List Secret) (cfg : List SecretConfig) :
    filterPhase1 secrets cfg
      = (cfg.filterMap (phase1Select secrets), injectedKeys secrets cfg) := by
  have key : ∀ (l : List SecretConfig) (acc : List Secret × List String),
      l.foldl
        (fun acc c =>
          match lookupSecret secrets c.name with
          | some s =>
            if containsDollar c.value then (acc.1 ++ [s], acc.2 ++ [s.secretKey])
            else acc
          | none => acc)
        acc
      = (acc.1 ++ l.filterMap (phase1Select secrets),
         acc.2 ++ (l.filterMap (phase1Select secrets)).map Secret.secretKey) := by
    intro l
    induction l with
    | nil => intro acc; simp
    | cons c cs ih =>
      intro acc
      rw [List.foldl_cons, ih]
      cases hl : lookupSecret secrets c.name with
      | some s =>
        cases hc : containsDollar c.value
        · simp [phase1Select, hl, hc, List.filterMap_cons]
        · simp [phase1Select, hl, hc, List.filterMap_cons]
      | none => simp [phase1Select, hl, List.filterMap_cons]
  unfold filterPhase1 injectedKeys
  rw [key cfg ([], [])]
  simp

/-- FilterSecrets equals its first pass followed by its second pass,
each a filterMap over the config list. -/
theorem filterSecrets_phases (env : String → String) (secrets : List Secret)
    (cfg : List SecretConfig) :
    FilterSecrets env secrets cfg
      = cfg.filterMap (phase1Select secrets)
        ++ cfg.filterMap (phase2Select env (injectedKeys secrets cfg)) := by
  have hf : ∀ (acc : List Secret) (c : SecretConfig),
      (if (injectedKeys secrets cfg).contains c.name then acc
       else if !(containsDollar c.value) then acc ++ [⟨c.name, c.value⟩]
       else if env c.name == "" then acc
       else acc ++ [⟨c.name, env c.name⟩])
      = acc ++ (phase2Select env (injectedKeys secrets cfg) c).toList := by
    intro acc c
    unfold phase2Select
    cases h1 : (injectedKeys secrets cfg).contains c.name
    · cases h2 : containsDollar c.value
      · simp [h1, h2]
      · cases h3 : env c.name == ""
        · simp [h1, h2, h3]
        · simp [h1, h2, h3]
    · simp [h1]
  have hmain := foldl_filterMap_eq (phase2Select env (injectedKeys secrets cfg))
    (fun acc c =>
      if (injectedKeys secrets cfg).contains c.name then acc
      else if !(containsDollar c.value) then acc ++ [⟨c.name, c.value⟩]
      else if env c.name == "" then acc
      else acc ++ [⟨c.name, env c.name⟩])
    hf cfg (cfg.filterMap (phase1Select secrets))
  unfold FilterSecrets
  rw [filterPhase1_eq]
  exact hmain

/-- A secret found in the provider map carries the key it was looked
up under. -/
theorem lookupSecret_key {secrets : List Secret} {k : String} {s : Secret}
    (h : lookupSecret secrets k = some s) : s.secretKey = k := by
  unfold lookupSecret at h
  have h2 := List.find?_some h
  simpa using h2

/-- Key of a phase-one selection: present exactly when the entry is
kept, and then equal to the config entry's name. -/
theorem phase1Select_key_eq (secrets : List Secret) (c : SecretConfig) :
    (phase1Select secrets c).map Secret.secretKey
      = if phase1Keeps secrets c then some c.name else none := by
  unfold phase1Select phase1Keeps
  cases hl : lookupSecret secrets c.name with
  | some s =>
    cases hc : containsDollar c.value
    · simp [hc]
    · simp [hc, lookupSecret_key hl]
  | none => simp

/-- Key of a phase-two selection: present exactly when the entry is
kept, and then equal to the config entry's name. -/
theorem phase2Select_key_eq (env : String → String) (inj : List String)
    (c : SecretConfig) :
    (phase2Select env inj c).map Secret.secretKey
      = if phase2Keeps env inj c then some c.name else none := by
  unfold phase2Select phase2Keeps
  cases h1 : inj.contains c.name
  · cases h2 : containsDollar c.value
    · simp [h1, h2]
    · cases h3 : env c.name == ""
      · simp [h1, h2, h3]
      · simp [h1, h2, h3]
  · simp [h1]

/-- A guarded filterMap is a filter followed by a map. -/
theorem filterMap_guard {α β : Type} (p : α → Bool) (f : α → β) :
    ∀ l : List α,
      l.filterMap (fun a => if p a then some (f a) else none)
        = (l.filter p).map f := by
  intro l
  induction l with
  | nil => simp
  | cons a as ih =>
    cases hp : p a
    · simp [List.filterMap_cons, List.filter_cons, hp, ih]
    · simp [List.filterMap_cons, List.filter_cons, hp, ih]

/-- The injected key set is the names of the phase-one-kept config
entries, in config order. -/
theorem injectedKeys_eq (secrets : List Secret) (cfg : List SecretConfig) :
    injectedKeys secrets cfg
      = (cfg.filter (phase1Keeps secrets)).map SecretConfig.name := by
  unfold injectedKeys
  rw [List.map_filterMap]
  have hfun : (fun c => (phase1Select secrets c).map Secret.secretKey)
      = fun c : SecretConfig =>
          if phase1Keeps secrets c then some c.name else none :=
    funext (fun c => phase1Select_key_eq secrets c)
  rw [hfun, filterMap_guard]

/-- The keys of the merged secret set, as two filtered name lists. -/
theorem filterSecrets_keys (env : String → String) (secrets : List Secret)
    (cfg : List SecretConfig) :
    (FilterSecrets env secrets cfg).map Secret.secretKey
      = (cfg.filter (phase1Keeps secrets)).map SecretConfig.name
        ++ (cfg.filter (phase2Keeps env (injectedKeys secrets cfg))).map
            SecretConfig.name := by
  rw [filterSecrets_phases, List.map_append]
  congr 1
  · exact injectedKeys_eq secrets cfg
  · rw [List.map_filterMap]
    have hfun : (fun c => (phase2Select env (injectedKeys secrets cfg) c).map
          Secret.secretKey)
        = fun c : SecretConfig =>
            if phase2Keeps env (injectedKeys secrets cfg) c then some c.name
            else none :=
      funext (fun c => phase2Select_key_eq env (injectedKeys secrets cfg) c)
    rw [hfun, filterMap_guard]

/-- When the config names are pairwise distinct, no key is emitted
twice by FilterSecrets. -/
theorem filterSecrets_keys_nodup (env : String → String)
    (secrets : List Secret) (cfg : List SecretConfig)
    (hnd : (cfg.map SecretConfig.name).Nodup) :
    ((FilterSecrets env secrets cfg).map Secret.secretKey).Nodup := by
  rw [filterSecrets_keys]
  have hmap : ∀ p : SecretConfig → Bool,
      ((cfg.filter p).map SecretConfig.name).Sublist
        (cfg.map SecretConfig.name) :=
    fun p => (List.filter_sublist cfg).map SecretConfig.name
  refine List.Nodup.append ((hmap _).nodup hnd) ((hmap _).nodup hnd) ?_
  intro n h1 h2
  obtain ⟨c1, hc1mem, hc1n⟩ := List.mem_map.mp h1
  obtain ⟨c2, hc2mem, hc2n⟩ := List.mem_map.mp h2
  obtain ⟨hc1cfg, hp1⟩ := List.mem_filter.mp hc1mem
  obtain ⟨hc2cfg, hp2⟩ := List.mem_filter.mp hc2mem
  have hceq : c1 = c2 :=
    List.inj_on_of_nodup_map hnd hc1cfg hc2cfg (hc1n.trans hc2n.symm)
  have hin : c2.name ∈ injectedKeys secrets cfg := by
    rw [injectedKeys_eq]
    exact List.mem_map.mpr ⟨c1, hc1mem, hc1n.trans hc2n.symm⟩
  have hcon : (injectedKeys secrets cfg).contains c2.name = true := by
    simpa using hin
  unfold phase2Keeps at hp2
  rw [hcon] at hp2
  simp at hp2

/-! ## C7: config-declared values win, no duplicate keys -/

/-- C7: with pairwise distinct config names, for every name present in
both the provider set and the config list the merged set holds exactly
the config-declared value resolved per the reference rules - the
provider's secret when the config value contains a dollar sign, the
literal config value otherwise - and no key appears twice in the
merged set (which makes that resolved entry the unique one under its
key). -/
theorem filterSecrets_config_wins (env : String → String)
    (secrets : List Secret) (cfg : List SecretConfig)
    (hnd : (cfg.map SecretConfig.name).Nodup) :
    (∀ c ∈ cfg, ∀ s, lookupSecret secrets c.name = some s →
      ((containsDollar c.value = true →
          s ∈ FilterSecrets env secrets cfg ∧
          ∀ s' ∈ FilterSecrets env secrets cfg,
            s'.secretKey = c.name → s' = s) ∧
        (containsDollar c.value = false →
          (⟨c.name, c.value⟩ : Secret) ∈ FilterSecrets env secrets cfg ∧
          ∀ s' ∈ FilterSecrets env secrets cfg,
            s'.secretKey = c.name → s' = ⟨c.name, c.value⟩))) ∧
    ((FilterSecrets env secrets cfg).map Secret.secretKey).Nodup := by
  refine ⟨?_, filterSecrets_keys_nodup env secrets cfg hnd⟩
  intro c hc s hl
  have hinj :=
    List.inj_on_of_nodup_map (filterSecrets_keys_nodup env secrets cfg hnd)
  constructor
  · intro hd
    have hmem : s ∈ FilterSecrets env secrets cfg := by
      rw [filterSecrets_phases]
      apply List.mem_append_left
      exact List.mem_filterMap.mpr ⟨c, hc, by simp [phase1Select, hl, hd]⟩
    refine ⟨hmem, ?_⟩
    intro s' hs' hk
    exact hinj hs' hmem (by rw [hk, lookupSecret_key hl])
  · intro hd
    have hnotinj : (injectedKeys secrets cfg).contains c.name = false := by
      cases hcon : (injectedKeys secrets cfg).contains c.name
      · rfl
      · exfalso
        have hmemk : c.name ∈ injectedKeys secrets cfg := by simpa using hcon
        rw [injectedKeys_eq] at hmemk
        obtain ⟨c', hc'mem, hc'n⟩ := List.mem_map.mp hmemk
        obtain ⟨hc'cfg, hp1⟩ := List.mem_filter.mp hc'mem
        have hce : c' = c := List.inj_on_of_nodup_map hnd hc'cfg hc hc'n
        rw [hce] at hp1
        unfold phase1Keeps at hp1
        rw [hd] at hp1
        simp at hp1
    have hmem : (⟨c.name, c.value⟩ : Secret) ∈ FilterSecrets env secrets cfg := by
      rw [filterSecrets_phases]
      apply List.mem_append_right
      refine List.mem_filterMap.mpr ⟨c, hc, ?_⟩
      unfold phase2Select
      rw [hnotinj, hd]
      simp
    refine ⟨hmem, ?_⟩
    intro s' hs' hk
    exact hinj hs' hmem (by rw [hk])

/-- C7 witness: provider secret B=pv, config entries A (literal) and B
(dollar reference); the merged set contains the provider's B and has
pairwise distinct keys. -/
theorem filterSecrets_config_wins_witness :
    (([⟨"A", "x"⟩, ⟨"B", "$B"⟩] : List SecretConfig).map
        SecretConfig.name).Nodup ∧
    (⟨"B", "pv"⟩ : Secret)
      ∈ FilterSecrets (fun _ => "") [⟨"B", "pv"⟩] [⟨"A", "x"⟩, ⟨"B", "$B"⟩] ∧
    ((FilterSecrets (fun _ => "") [⟨"B", "pv"⟩]
        [⟨"A", "x"⟩, ⟨"B", "$B"⟩]).map Secret.secretKey).Nodup := by
  have h := filterSecrets_config_wins (fun _ => "") [⟨"B", "pv"⟩]
    [⟨"A", "x"⟩, ⟨"B", "$B"⟩] (by decide)
  refine ⟨by decide, ?_, h.2⟩
  exact ((h.1 ⟨"B", "$B"⟩ (by simp) ⟨"B", "pv"⟩ (by decide)).1 (by decide)).1

/-! ## C8: output order of the merged secret set -/

/-- C8 counterexample: with provider secret B and config declaring A
(literal) before B (dollar reference), the merged output lists B before
A, so the config declaration order A-then-B is not preserved in the
output. -/
theorem filterSecrets_order_counterexample :
    FilterSecrets (fun _ => "") [⟨"B", "pv"⟩] [⟨"A", "x"⟩, ⟨"B", "$B"⟩]
      = [⟨"B", "pv"⟩, ⟨"A", "x"⟩] ∧
    ([(⟨"A", "x"⟩ : SecretConfig), ⟨"B", "$B"⟩].map SecretConfig.name)
      = ["A", "B"] := by
  refine ⟨by decide, by decide⟩

/-- C8 (amended): the merged set is two blocks, each preserving config
declaration order: first the dollar-referenced entries found in the
provider (the first loop), then the remaining kept entries (the second
loop); each block's key sequence is a subsequence of the config name
sequence. -/
theorem filterSecrets_two_phase_order (env : String → String)
    (secrets : List Secret) (cfg : List SecretConfig) :
    FilterSecrets env secrets cfg
      = cfg.filterMap (phase1Select secrets)
        ++ cfg.filterMap (phase2Select env (injectedKeys secrets cfg)) ∧
    ((cfg.filterMap (phase1Select secrets)).map Secret.secretKey).Sublist
      (cfg.map SecretConfig.name) ∧
    ((cfg.filterMap (phase2Select env (injectedKeys secrets cfg))).map
        Secret.secretKey).Sublist (cfg.map SecretConfig.name) := by
  refine ⟨filterSecrets_phases env secrets cfg, ?_, ?_⟩
  · have h1 : (cfg.filterMap (phase1Select secrets)).map Secret.secretKey
        = (cfg.filter (phase1Keeps secrets)).map SecretConfig.name :=
      injectedKeys_eq secrets cfg
    rw [h1]
    exact (List.filter_sublist cfg).map SecretConfig.name
  · rw [List.map_filterMap]
    have hfun : (fun c => (phase2Select env (injectedKeys secrets cfg) c).map
          Secret.secretKey)
        = fun c : SecretConfig =>
            if phase2Keeps env (injectedKeys secrets cfg) c then some c.name
            else none :=
      funext (fun c => phase2Select_key_eq env (injectedKeys secrets cfg) c)
    rw [hfun, filterMap_guard]
    exact (List.filter_sublist cfg).map SecretConfig.name

/-! ## C9: DeleteJob error surface -/

/-- C9: the DeleteJob RPC returns an error exactly when runner.DeleteJob
does: the scheduler removal never errors and the store's not-found
error is discarded.  With the local runner's DeleteJob, which always
succeeds, two consecutive DeleteJob calls for the same name both return
success. -/
theorem deleteJob_error_iff_runner_error (runnerDel : String → Option String)
    (st : ServerState) (name : String) :
    ((serverDeleteJob runnerDel st name).1 = (runnerDel name).isSome) ∧
    (serverDeleteJob localRunnerDeleteJob st name).1 = false ∧
    (serverDeleteJob localRunnerDeleteJob
        (serverDeleteJob localRunnerDeleteJob st name).2 name).1 = false := by
  refine ⟨?_, ?_, ?_⟩
  · unfold serverDeleteJob
    cases h : runnerDel name <;> simp [h]
  · unfold serverDeleteJob
    simp [localRunnerDeleteJob]
  · unfold serverDeleteJob
    simp [localRunnerDeleteJob]

/-! ## C2: the persisted JobRecord of a repeatable RunJob -/

/-- C2: evaluating the RunJob handler on a successful repeatable
request (name nightly, command report, args "abc", schedule
"0 0 2 * * *", resources 500m / 1Gi) shows the persisted apollo_jobs
row: exactly one row keyed by the name, but its cron_spec and
args_base64 columns are empty strings instead of the request's schedule
and args, because the JobRecord literal in the handler sets only Name,
Command, Cpu and Memory.  The code's own Reload re-registers schedules
from the stored cron_spec, which this row leaves empty. -/
theorem runJob_repeatable_persists_empty_cron_spec :
    (serverRunJob ⟨"/app/rover", []⟩ (fun _ => true)
        ⟨0, 0, 0, "", none, true⟩
        ⟨some ⟨[], [], 0⟩, some ⟨[], []⟩⟩
        ⟨"nightly", "", "report", "abc", ⟨"500m", "1Gi"⟩, 1,
          "0 0 2 * * *", none⟩).result
      = RunJobResult.ok "nightly" "scheduled" ∧
    ((serverRunJob ⟨"/app/rover", []⟩ (fun _ => true)
        ⟨0, 0, 0, "", none, true⟩
        ⟨some ⟨[], [], 0⟩, some ⟨[], []⟩⟩
        ⟨"nightly", "", "report", "abc", ⟨"500m", "1Gi"⟩, 1,
          "0 0 2 * * *", none⟩).state.store.map StoreState.jobs)
      = some [⟨"nightly", "report", "", "", "500m", "1Gi"⟩] ∧
    ("" : String) ≠ "0 0 2 * * *" ∧ ("" : String) ≠ "abc" := by
  refine ⟨by decide, by decide, by decide, by decide⟩

/-! ## C5: wire overrides and job_id never reach the runner -/

/-- C5: the handler copies only name, command, args_base64, resources,
type and schedule into the runner-level request - Overrides is always
nil and JobID always starts empty even when the wire message carries
them - so when a synchronous run replies successfully, its id is the
auto-generated job-<name>-<unix seconds> string. -/
theorem runJob_ignores_wire_overrides_and_job_id (cfg : ServerConfig)
    (req : RpcRunJobRequest) :
    (toRunnerRequest cfg req).overrides = none ∧
    (toRunnerRequest cfg req).jobID = "" ∧
    (∀ (eff : SyncEffects) (store : Option StoreState) (id logs : String),
      (runJobSync eff store (toRunnerRequest cfg req)).1
          = RunJobResult.ok id logs →
      id = "job-" ++ req.name ++ "-" ++ toString eff.idTime) := by
  have hno : (toRunnerRequest cfg req).overrides = none := by
    simp only [toRunnerRequest]
    split <;> rfl
  have hj : (toRunnerRequest cfg req).jobID = "" := by
    simp only [toRunnerRequest]
    split <;> rfl
  have hn : (toRunnerRequest cfg req).name = req.name := by
    simp only [toRunnerRequest]
    split <;> rfl
  refine ⟨hno, hj, ?_⟩
  intro eff store id logs h
  cases he : eff.runnerErr with
  | some m =>
    simp [runJobSync, hj, hn, he] at h
  | none =>
    simp [runJobSync, hj, hn, he] at h
    exact h.1.symm

/-- C5 witness: a wire request that carries both a job_id and
overrides; the synchronous reply id is still the generated
job-n-42 string. -/
theorem runJob_ignores_wire_overrides_and_job_id_witness :
    (runJobSync ⟨41, 42, 43, "res", none, true⟩ (some ⟨[], []⟩)
        (toRunnerRequest ⟨"/app/rover", []⟩
          ⟨"n", "wire-id", "c", "", ⟨"1", "1Gi"⟩, 0, "",
            some ⟨["x"], [], none, 0⟩⟩)).1
      = RunJobResult.ok "job-n-42" "res" ∧
    "job-n-42" = "job-" ++ "n" ++ "-" ++ toString (42 : Int) :=
  ⟨by decide,
    (runJob_ignores_wire_overrides_and_job_id ⟨"/app/rover", []⟩
        ⟨"n", "wire-id", "c", "", ⟨"1", "1Gi"⟩, 0, "",
          some ⟨["x"], [], none, 0⟩⟩).2.2
      ⟨41, 42, 43, "res", none, true⟩ (some ⟨[], []⟩) "job-n-42" "res"
      (by decide)⟩

/-! ## C6: the audit row of a synchronous run -/

/-- C6: for every synchronous run with a store present, exactly one
audit row - carrying the recorded start and finish times, with status
"error" precisely when the runner errored and "success" otherwise - is
submitted to the store before the RPC returns (also on the error path);
the RPC's result propagates the runner error after that write attempt,
and is unchanged whether the audit insert succeeds or fails. -/
theorem runJobSync_audit_before_response (eff : SyncEffects)
    (sto : StoreState) (r : JobRequest) :
    ∃ rec : ExecutionRecord,
      (runJobSync eff (some sto) r).2.2 = [rec] ∧
      rec.status = (if eff.runnerErr.isSome then "error" else "success") ∧
      rec.startedAt = eff.startTime ∧
      rec.finishedAt = eff.finishTime ∧
      (runJobSync eff (some sto) r).1
        = (if eff.runnerErr.isSome then RunJobResult.err
           else RunJobResult.ok rec.id eff.runnerRes) ∧
      (if eff.addExecOk then
        (runJobSync eff (some sto) r).2.1 = some (storeAddExecution sto rec)
       else (runJobSync eff (some sto) r).2.1 = some sto) ∧
      (runJobSync { eff with addExecOk := false } (some sto) r).1
        = (runJobSync { eff with addExecOk := true } (some sto) r).1 := by
  refine ⟨mkExecutionRecord
      (if r.jobID = "" then
        { r with jobID := "job-" ++ r.name ++ "-" ++ toString eff.idTime }
       else r)
      (if r.jobID = "" then
        { r with jobID := "job-" ++ r.name ++ "-" ++ toString eff.idTime }
       else r).jobID
      eff.runnerRes eff.runnerErr eff.startTime eff.finishTime,
    ?_, ?_, rfl, rfl, ?_, ?_, ?_⟩
  · cases he : eff.runnerErr <;> simp [runJobSync, he]
  · cases he : eff.runnerErr <;> simp [mkExecutionRecord, he]
  · cases he : eff.runnerErr <;> simp [runJobSync, mkExecutionRecord, he]
  · cases ha : eff.addExecOk <;> cases he : eff.runnerErr <;>
      simp [runJobSync, ha, he]
  · cases he : eff.runnerErr <;> simp [runJobSync, he]

end Apollo
